import Mathlib

/-!
# Verification of the ebook_analyzer three-stage comparison pipeline

Shallow embedding of the core of `ebook_calibre_analyzer`:

* `EbookFile` / `FileCollection` — `models.py`
* `stage1Go` / `stage2Go` / `stage3Go` — `comparison/stage{1,2,3}.py`
* `preprocess_files` — `preprocessing.py`
* `hash_first_1k_worker`, `hash_full_file_worker`, `cpu_hash_batch` — `hashing/cpu.py`
* `gpu_hash_full_file`, `gpu_hash_batch` — `hashing/gpu.py`
* `hash_stage2_files`, `hash_stage3_files` — `hashing/orchestrator.py`
* `dedupGo` / `deduplicate` and `run_analyze_core` — `__main__.py` (`run_analyze`)

Conventions of the embedding:

* Python `bytes` values (file contents and digests) are `List Nat`.
* SHA-256 is an external cryptographic primitive; the embedding is
  parameterised by a digest function `H : List Nat → List Nat`.  `hashlib`'s
  incremental interface (`update` on successive chunks, then `digest`) is
  modelled by applying `H` to the concatenation of all updated chunks, which
  is exactly what the streaming interface computes.
* The filesystem is a partial map `fs : String → Option (List Nat)` from a
  path to the file's bytes; `none` models a file whose open/read raises
  `OSError`.
* Python mutates `EbookFile` objects in place.  The embedding passes records
  by value: a function that mutates the records of a list returns the updated
  list, and comparator stages additionally return the full visited list so
  that in-place status updates on records dropped from the returned
  "unique" list remain observable.
-/

set_option autoImplicit false

namespace EbookAnalyzer

/-- Byte strings (Python `bytes`): file contents and digests. -/
abbrev Bytes := List Nat

/-- `models.EbookFile`: one discovered file with metadata, progressively
computed hashes, and processing state. -/
structure EbookFile where
  full_path : String
  relative_path : String := ""
  filename : String := ""
  file_size : Nat := 0
  file_extension : String := ""
  size_hash : Option Nat := none
  first_1k_hash : Option Bytes := none
  full_hash : Option Bytes := none
  processing_method : String := "cpu"
  processing_status : String := "pending"
deriving DecidableEq

/-- `EbookFile.get_size_hash`: the cached size hash if set, else the file
size.  (The Python method also writes the cache; the cached value is always
`file_size`, so the read is what matters downstream.) -/
def get_size_hash (f : EbookFile) : Nat :=
  f.size_hash.getD f.file_size

/-- Lookup in an association list (a Python `dict` keyed by `k`). -/
def alookup {α β : Type} [DecidableEq α] (l : List (α × β)) (k : α) : Option β :=
  (l.find? (fun p => decide (p.1 = k))).map Prod.snd

/-- `defaultdict(list)` append: `d[k].append(v)`. -/
def mdAppend {α β : Type} [DecidableEq α] (l : List (α × List β)) (k : α) (v : β) :
    List (α × List β) :=
  match l with
  | [] => [(k, [v])]
  | (k', vs) :: rest =>
    if k' = k then (k', vs ++ [v]) :: rest else (k', vs) :: mdAppend rest k v

/-- `dict` assignment: `d[k] = v` (last write wins). -/
def mSet {α β : Type} [DecidableEq α] (l : List (α × β)) (k : α) (v : β) :
    List (α × β) :=
  match l with
  | [] => [(k, v)]
  | (k', v') :: rest =>
    if k' = k then (k, v) :: rest else (k', v') :: mSet rest k v

/-- `models.FileCollection`: a list of records with three derived lookup
structures. -/
structure FileCollection where
  files : List EbookFile := []
  by_size : List (Nat × List EbookFile) := []
  by_size_and_1k : List ((Nat × Bytes) × List EbookFile) := []
  by_full_hash : List (Bytes × EbookFile) := []
deriving DecidableEq

/-- `FileCollection.add_file`. -/
def add_file (c : FileCollection) (f : EbookFile) : FileCollection :=
  let size := get_size_hash f
  let f' := { f with size_hash := some size }
  { files := c.files ++ [f'],
    by_size := mdAppend c.by_size size f',
    by_size_and_1k :=
      match f'.first_1k_hash with
      | some h => mdAppend c.by_size_and_1k (size, h) f'
      | none => c.by_size_and_1k,
    by_full_hash :=
      match f'.full_hash with
      | some h => mSet c.by_full_hash h f'
      | none => c.by_full_hash }

/-- `FileCollection.get_unique_sizes`: the keys of `by_size` (as a list;
only membership is ever used). -/
def unique_sizes (c : FileCollection) : List Nat :=
  c.by_size.map (·.1)

/-- `FileCollection.get_files_by_size_and_1k`. -/
def get_files_by_size_and_1k (c : FileCollection) (s : Nat) (h : Bytes) :
    List EbookFile :=
  (alookup c.by_size_and_1k (s, h)).getD []

/-- `FileCollection.get_file_by_full_hash`. -/
def get_file_by_full_hash (c : FileCollection) (h : Bytes) : Option EbookFile :=
  alookup c.by_full_hash h

/-- `Stage1Comparator.compare`, as a recursion over the datalake records
with the library's size set fixed.  Returns `(unique_files, candidates)`;
every visited record's status is set to `"size_checked"`. -/
def stage1Go (sizes : List Nat) : List EbookFile → List EbookFile × List EbookFile
  | [] => ([], [])
  | f :: rest =>
    let r := stage1Go sizes rest
    if get_size_hash f ∈ sizes then
      (r.1, { f with processing_status := "size_checked" } :: r.2)
    else
      ({ f with processing_status := "size_checked" } :: r.1, r.2)

/-- `Stage1Comparator.compare` on the two collections. -/
def stage1Compare (ebooks calibre : FileCollection) :
    List EbookFile × List EbookFile :=
  stage1Go (unique_sizes calibre) ebooks.files

/-- `Stage2Comparator.compare`.  Returns `(unique_files, candidates)`;
every visited record's status is set to `"1k_hashed"`. -/
def stage2Go (calibre : FileCollection) : List EbookFile → List EbookFile × List EbookFile
  | [] => ([], [])
  | f :: rest =>
    let f' := { f with processing_status := "1k_hashed" }
    let r := stage2Go calibre rest
    match f.first_1k_hash with
    | none => (f' :: r.1, r.2)
    | some h =>
      if get_files_by_size_and_1k calibre (get_size_hash f) h = [] then
        (f' :: r.1, r.2)
      else
        (r.1, f' :: r.2)

/-- `Stage3Comparator.compare`.  The Python function returns only the unique
list but also mutates every visited record's status in place; the embedding
returns `(unique_files, visited records with updated status)`. -/
def stage3Go (calibre : FileCollection) : List EbookFile → List EbookFile × List EbookFile
  | [] => ([], [])
  | f :: rest =>
    let f' := { f with processing_status := "full_hashed" }
    let r := stage3Go calibre rest
    match f.full_hash with
    | none => (f' :: r.1, f' :: r.2)
    | some h =>
      if h = [] then (f' :: r.1, f' :: r.2)
      else
        match get_file_by_full_hash calibre h with
        | none => (f' :: r.1, f' :: r.2)
        | some _ => (r.1, f' :: r.2)

/-- `cpu._hash_first_1k_worker`: digest of the first 1024 bytes; `[]` (the
empty-hash sentinel `b""`) when the file cannot be opened or read. -/
def hash_first_1k_worker (H : Bytes → Bytes) (fs : String → Option Bytes)
    (path : String) : Bytes :=
  match fs path with
  | none => []
  | some content => H (content.take 1024)

/-- `cpu._hash_full_file_worker`: digest of the whole file (streamed in 1MB
chunks, which hashes their concatenation, i.e. the whole content); `[]` when
the file cannot be opened or read. -/
def hash_full_file_worker (H : Bytes → Bytes) (fs : String → Option Bytes)
    (path : String) : Bytes :=
  match fs path with
  | none => []
  | some content => H content

/-- `CPUHashProcessor.hash_batch`: dispatch on the stage identifier, raising
`ValueError` (modelled as `Except.error`) for an unknown stage; results are
written back positionally, so the returned list is in input order. -/
def cpu_hash_batch (H : Bytes → Bytes) (fs : String → Option Bytes)
    (files : List EbookFile) (stage : String) : Except String (List Bytes) :=
  if stage = "1k" then
    Except.ok (files.map (fun f => hash_first_1k_worker H fs f.full_path))
  else if stage = "full" then
    Except.ok (files.map (fun f => hash_full_file_worker H fs f.full_path))
  else
    Except.error ("Unknown stage: " ++ stage)

/-- The positional write-back of `CPUHashProcessor.hash_batch`:
`results[index] = future.result()` executed in an arbitrary completion
order.  `order` is the sequence of indices in completion order; `w i` is the
result of the task submitted for index `i`. -/
def fillResults (w : Nat → Bytes) : List Nat → List (Option Bytes) → List (Option Bytes)
  | [], res => res
  | i :: rest, res => fillResults w rest (res.set i (some (w i)))

/-- State of `GPUHashProcessor` / `GPUMemoryPool` relevant to one hashing
call: the cached availability flag probed at construction, the value
returned by `get_available_memory()` for this call (`0` both when the device
reports no free memory and when the re-query raises and is caught inside
`get_available_memory`), and whether a CUDA/driver error is raised inside
the staging block (caught by the `except` and sent to the CPU fallback). -/
structure GPUState where
  gpu_available : Bool
  free_memory : Nat
  runtime_error : Bool
deriving DecidableEq

/-- The chunked read loop of `GPUHashProcessor.hash_full_file`: repeatedly
`f.read(k)` until an empty read, hashing the concatenation of the chunks.
With `k = 0`, Python's `f.read(0)` returns `b""` and the loop body never
runs. -/
def readLoop (k : Nat) (content : Bytes) : Bytes :=
  if h : k = 0 ∨ content = [] then []
  else content.take k ++ readLoop k (content.drop k)
termination_by content.length
decreasing_by
  push_neg at h
  simp only [List.length_drop]
  exact Nat.sub_lt (List.length_pos.mpr h.2) (Nat.pos_of_ne_zero h.1)

/-- `GPUHashProcessor.hash_full_file`.  `usable = int(available * 0.8)`;
small files are staged in one read, larger ones through the chunked loop
with `chunk = min(256MB, usable)`; availability failure, a caught staging
error, and `OSError` on the read all fall back to the CPU worker. -/
def gpu_hash_full_file (H : Bytes → Bytes) (fs : String → Option Bytes)
    (st : GPUState) (f : EbookFile) : Bytes :=
  if st.gpu_available = false then hash_full_file_worker H fs f.full_path
  else if st.runtime_error then hash_full_file_worker H fs f.full_path
  else
    match fs f.full_path with
    | none => hash_full_file_worker H fs f.full_path
    | some content =>
      let usable := st.free_memory * 8 / 10
      if f.file_size ≤ usable then H content
      else H (readLoop (min (256 * 1024 * 1024) usable) content)

/-- `GPUHashProcessor.hash_batch`: stage `"1k"` and the GPU-unavailable case
delegate to the CPU batch; otherwise every file of the batch goes through
`hash_full_file` (grouping into `batch_size` sub-batches preserves order),
with no check of the stage identifier on this path. -/
def gpu_hash_batch (H : Bytes → Bytes) (fs : String → Option Bytes)
    (st : GPUState) (files : List EbookFile) (stage : String) :
    Except String (List Bytes) :=
  if stage = "1k" then cpu_hash_batch H fs files stage
  else if st.gpu_available = false then cpu_hash_batch H fs files stage
  else Except.ok (files.map (fun f => gpu_hash_full_file H fs st f))

/-- The threshold actually used by `preprocess_files`: the given one, or the
100MB default when none is given and the GPU is available. -/
def effective_gpu_threshold (gpu_available : Bool) (gpu_threshold : Option Nat) :
    Option Nat :=
  match gpu_threshold with
  | some t => some t
  | none => if gpu_available then some (100 * 1024 * 1024) else none

/-- Result of `preprocessing.preprocess_files`: the `'gpu'`, `'cpu'` and
`'skip'` buckets. -/
structure Categorized where
  gpu : List EbookFile
  cpu : List EbookFile
  skip : List EbookFile
deriving DecidableEq

/-- Body of `preprocess_files` after the threshold defaulting. -/
def preprocessGo (gpu_available : Bool) (t : Option Nat) (processed : List String) :
    List EbookFile → Categorized
  | [] => ⟨[], [], []⟩
  | f :: rest =>
    let r := preprocessGo gpu_available t processed rest
    if f.full_path ∈ processed then ⟨r.gpu, r.cpu, f :: r.skip⟩
    else if gpu_available = true ∧ ∃ v, t = some v ∧ v ≤ f.file_size then
      ⟨{ f with processing_method := "gpu" } :: r.gpu, r.cpu, r.skip⟩
    else
      ⟨r.gpu, { f with processing_method := "cpu" } :: r.cpu, r.skip⟩

instance (ga : Bool) (t : Option Nat) (n : Nat) :
    Decidable (ga = true ∧ ∃ v, t = some v ∧ v ≤ n) :=
  match t with
  | none => isFalse (by simp)
  | some v =>
    if h : ga = true ∧ v ≤ n then
      isTrue ⟨h.1, v, rfl, h.2⟩
    else
      isFalse (by
        rintro ⟨h1, w, hw, hle⟩
        exact h ⟨h1, by injection hw with hw; omega⟩)

/-- `preprocessing.preprocess_files`: categorize files as `gpu`/`cpu`/`skip`,
assigning `processing_method` to every non-skipped record. -/
def preprocess_files (files : List EbookFile) (gpu_available : Bool)
    (gpu_threshold : Option Nat) (processed : List String) : Categorized :=
  preprocessGo gpu_available (effective_gpu_threshold gpu_available gpu_threshold)
    processed files

/-- One `hash_batch` invocation issued by the orchestrator: which group the
batch came from (`"calibre"` or `"ebooks"`), which backend object received
it, the stage identifier, and the paths of the submitted files. -/
structure HashCall where
  side : String
  backend : String
  stage : String
  paths : List String
deriving DecidableEq

/-- The per-record effect of the orchestrator's 1KB write-back: set
`first_1k_hash` when the computed hash is non-empty (`if hash_value:`). -/
def set_1k (H : Bytes → Bytes) (fs : String → Option Bytes) (f : EbookFile) :
    EbookFile :=
  let h := hash_first_1k_worker H fs f.full_path
  if h = [] then f else { f with first_1k_hash := some h }

/-- `calibre_stage2_candidates` in the source: library records whose size is
among the Stage 1 candidate sizes. -/
def calibre_stage2_candidates (calibre : FileCollection)
    (cands : List EbookFile) : List EbookFile :=
  calibre.files.filter
    (fun f => decide (get_size_hash f ∈ cands.map get_size_hash))

/-- The `hash_batch` invocations issued by `hash_stage2_files` (the library
batch is guarded by `if calibre_stage2_candidates:`; the ebooks batch is
unconditional; both go to the CPU backend with stage `"1k"`). -/
def hash_stage2_calls (calibre : FileCollection) (cands : List EbookFile) :
    List HashCall :=
  (if (calibre_stage2_candidates calibre cands).isEmpty then []
   else [⟨"calibre", "cpu", "1k",
      (calibre_stage2_candidates calibre cands).map (·.full_path)⟩]) ++
  [⟨"ebooks", "cpu", "1k", cands.map (·.full_path)⟩]

/-- `HashingOrchestrator.hash_stage2_files`: select the library records whose
size is among the Stage 1 candidate sizes, 1KB-hash both groups via the CPU
backend, write back non-empty hashes, and append the updated records to the
library's `(size, 1k_hash)` index.  Returns the updated library collection,
the updated candidate records (Python mutates them in place), and the log of
backend invocations.  (The record values stored in `by_size` are not
refreshed; nothing downstream reads their hash fields through that index.
The ebooks-side `(size, 1k_hash)` index is updated by the source as well but
never read by any later pipeline step, so it is not tracked.) -/
def hash_stage2_files (H : Bytes → Bytes) (fs : String → Option Bytes)
    (calibre : FileCollection) (cands : List EbookFile) :
    FileCollection × List EbookFile × List HashCall :=
  let sizes := cands.map get_size_hash
  let sel := calibre_stage2_candidates calibre cands
  let calibre' : FileCollection :=
    { calibre with
      files := calibre.files.map
        (fun f => if get_size_hash f ∈ sizes then set_1k H fs f else f),
      by_size_and_1k := sel.foldl
        (fun m f =>
          let h := hash_first_1k_worker H fs f.full_path
          if h = [] then m
          else mdAppend m (get_size_hash f, h) (set_1k H fs f))
        calibre.by_size_and_1k }
  (calibre', cands.map (set_1k H fs), hash_stage2_calls calibre cands)

/-- The per-record effect of the orchestrator's full-hash write-back. -/
def set_full (h : Bytes) (f : EbookFile) : EbookFile :=
  { f with full_hash := some h }

/-- The `(size, 1k_hash)` pair set of the Stage 2 candidates
(`stage3_size_1k_set` in the source; pairs of candidates whose 1KB hash is
present). -/
def stage3_size_1k_set (cands : List EbookFile) : List (Nat × Bytes) :=
  cands.filterMap (fun f => f.first_1k_hash.map (fun h => (get_size_hash f, h)))

/-- `calibre_stage3_candidates` in the source: library records with a 1KB
hash whose `(size, 1k_hash)` pair is shared with some Stage 2 candidate. -/
def calibre_stage3_candidates (calibre : FileCollection)
    (cands : List EbookFile) : List EbookFile :=
  calibre.files.filter
    (fun f =>
      match f.first_1k_hash with
      | none => false
      | some h => decide ((get_size_hash f, h) ∈ stage3_size_1k_set cands))

/-- `calibre_categorized` in the source: the very same `preprocess_files`
policy re-run on the selected library records. -/
def calibre_stage3_categorized (calibre : FileCollection)
    (cands : List EbookFile) (gpu_available : Bool) (gpu_threshold : Option Nat)
    (processed : List String) : Categorized :=
  preprocess_files (calibre_stage3_candidates calibre cands) gpu_available
    gpu_threshold processed

/-- The `hash_batch` invocations issued by `hash_stage3_files` (each of the
four batches is guarded by non-emptiness of its group, the GPU ones
additionally by the presence of a GPU processor). -/
def hash_stage3_calls (gpuPresent : Bool) (calibre : FileCollection)
    (cands : List EbookFile) (gpu_available : Bool) (gpu_threshold : Option Nat)
    (processed : List String) : List HashCall :=
  let cat := calibre_stage3_categorized calibre cands gpu_available
    gpu_threshold processed
  let stage3_gpu_files :=
    cands.filter (fun f => f.processing_method = "gpu" ∧ gpuPresent = true)
  let stage3_cpu_files :=
    cands.filter (fun f => f.processing_method = "cpu" ∨ gpuPresent = false)
  (if cat.gpu.isEmpty ∨ gpuPresent = false then []
   else [⟨"calibre", "gpu", "full", cat.gpu.map (·.full_path)⟩]) ++
  ((if cat.cpu.isEmpty then []
    else [⟨"calibre", "cpu", "full", cat.cpu.map (·.full_path)⟩]) ++
   ((if stage3_gpu_files.isEmpty ∨ gpuPresent = false then []
     else [⟨"ebooks", "gpu", "full", stage3_gpu_files.map (·.full_path)⟩]) ++
    (if stage3_cpu_files.isEmpty then []
     else [⟨"ebooks", "cpu", "full", stage3_cpu_files.map (·.full_path)⟩])))

/-- `HashingOrchestrator.hash_stage3_files`: split the Stage 2 candidates by
their pre-assigned `processing_method` (GPU only when a GPU processor is
attached), select the library records sharing a `(size, 1k_hash)` pair with
some candidate, re-run `preprocess_files` on that library subset, full-hash
each group on its backend, and write back non-empty hashes into each side's
full-hash index (last write wins).  Returns the updated library collection,
the updated candidate records, and the log of backend invocations.  (The
ebooks-side full-hash index is updated by the source too but never read by
any later pipeline step, so it is not tracked; likewise the library `files`
list entries' hash fields are not re-read after this point, only the
`by_full_hash` index is.) -/
def hash_stage3_files (H : Bytes → Bytes) (fs : String → Option Bytes)
    (gpuPresent : Bool) (st : GPUState) (calibre : FileCollection)
    (cands : List EbookFile) (gpu_available : Bool) (gpu_threshold : Option Nat)
    (processed : List String) :
    FileCollection × List EbookFile × List HashCall :=
  let stage3_gpu_files :=
    cands.filter (fun f => f.processing_method = "gpu" ∧ gpuPresent = true)
  let stage3_cpu_files :=
    cands.filter (fun f => f.processing_method = "cpu" ∨ gpuPresent = false)
  let cat := calibre_stage3_categorized calibre cands gpu_available
    gpu_threshold processed
  let gpuUpd := fun (m : List (Bytes × EbookFile)) (f : EbookFile) =>
    let h := gpu_hash_full_file H fs st f
    if h = [] then m else mSet m h (set_full h f)
  let cpuUpd := fun (m : List (Bytes × EbookFile)) (f : EbookFile) =>
    let h := hash_full_file_worker H fs f.full_path
    if h = [] then m else mSet m h (set_full h f)
  let afterGpu :=
    if gpuPresent then cat.gpu.foldl gpuUpd calibre.by_full_hash
    else calibre.by_full_hash
  let afterCpu := cat.cpu.foldl cpuUpd afterGpu
  let calibre' := { calibre with by_full_hash := afterCpu }
  let updCand := fun (f : EbookFile) =>
    if f.processing_method = "gpu" ∧ gpuPresent = true then
      let h := gpu_hash_full_file H fs st f
      if h = [] then f else set_full h f
    else if f.processing_method = "cpu" ∨ gpuPresent = false then
      let h := hash_full_file_worker H fs f.full_path
      if h = [] then f else set_full h f
    else f
  (calibre', cands.map updCand,
    hash_stage3_calls gpuPresent calibre cands gpu_available gpu_threshold
      processed)

/-- The dedup key of `run_analyze`'s within-datalake pass: full hash when
populated and non-empty (Python truthiness of `bytes`), else
`(size, 1k_hash)` when that is populated, else size alone.  The three
`seen_*` dicts of the source have disjoint key spaces, so they are modelled
as one map keyed by this discriminated union. -/
inductive DKey where
  | fullH : Bytes → DKey
  | size1k : Nat → Bytes → DKey
  | sizeOnly : Nat → DKey
deriving DecidableEq

/-- Python truthiness of an optional `bytes` field. -/
def truthy (o : Option Bytes) : Bool :=
  match o with
  | none => false
  | some l => decide (l ≠ [])

/-- Dedup key selection of `run_analyze` (most to least specific). -/
def dedupKey (f : EbookFile) : DKey :=
  if truthy f.full_hash then DKey.fullH (f.full_hash.getD [])
  else if truthy f.first_1k_hash then
    DKey.size1k (get_size_hash f) (f.first_1k_hash.getD [])
  else DKey.sizeOnly (get_size_hash f)

/-- The `method` string written to the duplicates report for each key kind. -/
def methodOf : DKey → String
  | DKey.fullH _ => "full_hash"
  | DKey.size1k _ _ => "size+1k_hash"
  | DKey.sizeOnly _ => "size_only"

/-- One row of the duplicates report. -/
structure DupEntry where
  duplicate_path : String
  original_path : String
  method : String
  file_size : Nat
  filename : String
deriving DecidableEq

/-- The report row `run_analyze` appends for duplicate `f` of `orig`. -/
def mkDupEntry (f orig : EbookFile) (m : String) : DupEntry :=
  ⟨f.full_path, orig.full_path, m, f.file_size, f.filename⟩

/-- The dedup loop of `run_analyze`: first record seen under a key is kept,
subsequent ones are dropped and recorded against the first. -/
def dedupGo (seen : List (DKey × EbookFile)) :
    List EbookFile → List EbookFile × List DupEntry
  | [] => ([], [])
  | f :: rest =>
    match alookup seen (dedupKey f) with
    | none =>
      let r := dedupGo ((dedupKey f, f) :: seen) rest
      (f :: r.1, r.2)
    | some orig =>
      let r := dedupGo seen rest
      (r.1, mkDupEntry f orig (methodOf (dedupKey f)) :: r.2)

/-- The within-datalake deduplication pass of `run_analyze`. -/
def deduplicate (files : List EbookFile) : List EbookFile × List DupEntry :=
  dedupGo [] files

/-- The comparison/dedup core of `run_analyze`, from the built collections
to the final deduplicated list and the duplicates report: Stage 1, 1KB
hashing, Stage 2, full hashing, Stage 3, merge, dedup.  (The source guards
Stages 2 and 3 behind non-emptiness of the candidate lists; on empty lists
the guarded steps are no-ops, so the unguarded composition is equivalent.) -/
def run_analyze_core (H : Bytes → Bytes) (fs : String → Option Bytes)
    (gpuPresent : Bool) (st : GPUState) (ebooks calibre : FileCollection)
    (gpu_available : Bool) (gpu_threshold : Option Nat)
    (processed : List String) : List EbookFile × List DupEntry :=
  let s1 := stage1Go (unique_sizes calibre) ebooks.files
  let h2 := hash_stage2_files H fs calibre s1.2
  let s2 := stage2Go h2.1 h2.2.1
  let h3 := hash_stage3_files H fs gpuPresent st h2.1 s2.2 gpu_available
    gpu_threshold processed
  let s3 := stage3Go h3.1 h3.2.1
  deduplicate (s1.1 ++ (s2.1 ++ s3.1))

/-! ## Characterization lemmas for the stage comparators -/

/-- Status update applied by Stage 1 to every visited record. -/
def markSize (f : EbookFile) : EbookFile :=
  { f with processing_status := "size_checked" }

/-- Status update applied by Stage 2 to every visited record. -/
def mark1k (f : EbookFile) : EbookFile :=
  { f with processing_status := "1k_hashed" }

/-- Status update applied by Stage 3 to every visited record. -/
def markFull (f : EbookFile) : EbookFile :=
  { f with processing_status := "full_hashed" }

theorem stage1Go_eq (sizes : List Nat) (files : List EbookFile) :
    stage1Go sizes files =
      ((files.filter (fun f => decide (get_size_hash f ∉ sizes))).map markSize,
       (files.filter (fun f => decide (get_size_hash f ∈ sizes))).map markSize) := by
  induction files with
  | nil => rfl
  | cons f rest ih =>
    by_cases h : get_size_hash f ∈ sizes <;>
      simp [stage1Go, ih, h, List.filter_cons, markSize]

/-- The Boolean "treated as unique" test of Stage 2: hash missing, or no
library record under `(size, 1k_hash)`. -/
def stage2Keep (calibre : FileCollection) (f : EbookFile) : Bool :=
  match f.first_1k_hash with
  | none => true
  | some h => decide (get_files_by_size_and_1k calibre (get_size_hash f) h = [])

theorem stage2Go_eq (calibre : FileCollection) (cands : List EbookFile) :
    stage2Go calibre cands =
      ((cands.filter (stage2Keep calibre)).map mark1k,
       (cands.filter (fun f => !stage2Keep calibre f)).map mark1k) := by
  induction cands with
  | nil => rfl
  | cons f rest ih =>
    match hh : f.first_1k_hash with
    | none => simp [stage2Go, ih, List.filter_cons, stage2Keep, hh, mark1k]
    | some h =>
      by_cases hm : get_files_by_size_and_1k calibre (get_size_hash f) h = [] <;>
        simp [stage2Go, ih, List.filter_cons, stage2Keep, hh, hm, mark1k]

/-- The Boolean "classified unique" test of Stage 3: hash missing or empty,
or no library record with the same full hash. -/
def stage3Keep (calibre : FileCollection) (f : EbookFile) : Bool :=
  match f.full_hash with
  | none => true
  | some h =>
    if h = [] then true
    else
      match get_file_by_full_hash calibre h with
      | none => true
      | some _ => false

theorem stage3Go_eq (calibre : FileCollection) (cands : List EbookFile) :
    stage3Go calibre cands =
      ((cands.filter (stage3Keep calibre)).map markFull, cands.map markFull) := by
  induction cands with
  | nil => rfl
  | cons f rest ih =>
    match hh : f.full_hash with
    | none => simp [stage3Go, ih, List.filter_cons, stage3Keep, hh, markFull]
    | some h =>
      by_cases he : h = []
      · simp [stage3Go, ih, List.filter_cons, stage3Keep, hh, he, markFull]
      · match hm : get_file_by_full_hash calibre h with
        | none =>
          simp [stage3Go, ih, List.filter_cons, stage3Keep, hh, he, hm, markFull]
        | some g =>
          simp [stage3Go, ih, List.filter_cons, stage3Keep, hh, he, hm, markFull]

theorem alookup_eq_none {α β : Type} [DecidableEq α]
    (l : List (α × β)) (k : α) :
    alookup l k = none ↔ ∀ p ∈ l, p.1 ≠ k := by
  constructor
  · intro hn p hp hk
    have : l.find? (fun p => decide (p.1 = k)) = none := by
      unfold alookup at hn
      exact Option.map_eq_none'.mp hn
    exact absurd (by simpa using hk) (by simpa using List.find?_eq_none.mp this p hp)
  · intro hall
    unfold alookup
    rw [Option.map_eq_none']
    rw [List.find?_eq_none]
    intro p hp
    simpa using hall p hp

/-! ## Claim theorems: the stage comparators -/

/-- C2: For every datalake record processed by Stage 1: if its size is not
among the sizes present in the library index it lands in the unique list,
otherwise in the Stage 2 candidate list; either way its status becomes
`size_checked`; and every output record agrees with its input record on
`first_1k_hash` and `full_hash` (Stage 1 computes no hash — a size-unique
record is classified with both hash fields exactly as they came in). -/
theorem stage1_size_filter_spec (ebooks calibre : FileCollection) :
    (∀ f ∈ ebooks.files,
        (get_size_hash f ∉ unique_sizes calibre →
          markSize f ∈ (stage1Compare ebooks calibre).1) ∧
        (get_size_hash f ∈ unique_sizes calibre →
          markSize f ∈ (stage1Compare ebooks calibre).2)) ∧
    (∀ g ∈ (stage1Compare ebooks calibre).1, ∃ f, f ∈ ebooks.files ∧
        g = markSize f ∧ get_size_hash f ∉ unique_sizes calibre ∧
        g.processing_status = "size_checked" ∧
        g.first_1k_hash = f.first_1k_hash ∧ g.full_hash = f.full_hash) ∧
    (∀ g ∈ (stage1Compare ebooks calibre).2, ∃ f, f ∈ ebooks.files ∧
        g = markSize f ∧ get_size_hash f ∈ unique_sizes calibre ∧
        g.processing_status = "size_checked" ∧
        g.first_1k_hash = f.first_1k_hash ∧ g.full_hash = f.full_hash) := by
  unfold stage1Compare
  rw [stage1Go_eq]
  refine ⟨fun f hf => ⟨fun hn => ?_, fun hy => ?_⟩, fun g hg => ?_, fun g hg => ?_⟩
  · exact List.mem_map_of_mem _ (List.mem_filter.mpr ⟨hf, by simpa using hn⟩)
  · exact List.mem_map_of_mem _ (List.mem_filter.mpr ⟨hf, by simpa using hy⟩)
  · rcases List.mem_map.mp hg with ⟨f, hfm, rfl⟩
    rcases List.mem_filter.mp hfm with ⟨hfi, hcond⟩
    exact ⟨f, hfi, rfl, by simpa using hcond, rfl, rfl, rfl⟩
  · rcases List.mem_map.mp hg with ⟨f, hfm, rfl⟩
    rcases List.mem_filter.mp hfm with ⟨hfi, hcond⟩
    exact ⟨f, hfi, rfl, by simpa using hcond, rfl, rfl, rfl⟩

/-- C3: For every Stage 1 candidate processed by Stage 2: a record with no
prefix hash is classified unique; otherwise it is unique when the library
index has no record under `(size, 1k_hash)` and a Stage 3 candidate when it
has at least one; every visited record's status becomes `1k_hashed`. -/
theorem stage2_prefix_filter_spec (calibre : FileCollection)
    (cands : List EbookFile) :
    (∀ f ∈ cands,
        (f.first_1k_hash = none → mark1k f ∈ (stage2Go calibre cands).1) ∧
        (∀ h, f.first_1k_hash = some h →
          (get_files_by_size_and_1k calibre (get_size_hash f) h = [] →
            mark1k f ∈ (stage2Go calibre cands).1) ∧
          (get_files_by_size_and_1k calibre (get_size_hash f) h ≠ [] →
            mark1k f ∈ (stage2Go calibre cands).2))) ∧
    (∀ g ∈ (stage2Go calibre cands).1, g.processing_status = "1k_hashed") ∧
    (∀ g ∈ (stage2Go calibre cands).2, g.processing_status = "1k_hashed") := by
  rw [stage2Go_eq]
  refine ⟨fun f hf => ⟨fun hn => ?_, fun h hh => ⟨fun he => ?_, fun hne => ?_⟩⟩,
    fun g hg => ?_, fun g hg => ?_⟩
  · exact List.mem_map_of_mem _
      (List.mem_filter.mpr ⟨hf, by simp [stage2Keep, hn]⟩)
  · exact List.mem_map_of_mem _
      (List.mem_filter.mpr ⟨hf, by simp [stage2Keep, hh, he]⟩)
  · exact List.mem_map_of_mem _
      (List.mem_filter.mpr ⟨hf, by simp [stage2Keep, hh, hne]⟩)
  · rcases List.mem_map.mp hg with ⟨f, _, rfl⟩
    rfl
  · rcases List.mem_map.mp hg with ⟨f, _, rfl⟩
    rfl

/-- C1: For every Stage 2 survivor processed by Stage 3: a record with no
full hash is classified unique; a record with a (non-empty) full hash is in
the unique output iff no library record with the same full hash exists in
the library's full-hash index (i.e. it is excluded iff such a record
exists); and every visited record's status advances to `full_hashed`. -/
theorem stage3_full_filter_spec (calibre : FileCollection)
    (cands : List EbookFile) :
    ((stage3Go calibre cands).2 = cands.map markFull) ∧
    (∀ f ∈ cands,
        (f.full_hash = none → markFull f ∈ (stage3Go calibre cands).1) ∧
        (∀ h, f.full_hash = some h → h ≠ [] →
          (markFull f ∈ (stage3Go calibre cands).1 ↔
            ∀ p ∈ calibre.by_full_hash, p.1 ≠ h))) ∧
    (∀ g ∈ (stage3Go calibre cands).1, g.processing_status = "full_hashed") ∧
    (∀ g ∈ (stage3Go calibre cands).2, g.processing_status = "full_hashed") := by
  rw [stage3Go_eq]
  refine ⟨rfl, fun f hf => ⟨fun hn => ?_, fun h hh hne => ?_⟩,
    fun g hg => ?_, fun g hg => ?_⟩
  · exact List.mem_map_of_mem _
      (List.mem_filter.mpr ⟨hf, by simp [stage3Keep, hn]⟩)
  · rw [← alookup_eq_none calibre.by_full_hash h]
    constructor
    · intro hmem
      rcases List.mem_map.mp hmem with ⟨f0, hf0, heq⟩
      rcases List.mem_filter.mp hf0 with ⟨_, hkeep⟩
      have hfull : (markFull f0).full_hash = (markFull f).full_hash :=
        congrArg EbookFile.full_hash heq
      simp only [markFull] at hfull
      rw [hh] at hfull
      unfold stage3Keep at hkeep
      rw [hfull] at hkeep
      simp only [if_neg hne] at hkeep
      match hm : get_file_by_full_hash calibre h with
      | none => exact hm
      | some g => rw [hm] at hkeep; exact absurd hkeep (by simp)
    · intro hnone
      have : get_file_by_full_hash calibre h = none := hnone
      exact List.mem_map_of_mem _
        (List.mem_filter.mpr ⟨hf, by simp [stage3Keep, hh, hne, this]⟩)
  · rcases List.mem_map.mp hg with ⟨f, _, rfl⟩
    rfl
  · rcases List.mem_map.mp hg with ⟨f, _, rfl⟩
    rfl

/-! ## Concrete fixtures used by witnesses and counterexamples -/

/-- Datalake record of size 3 (a size with no library match). -/
def wUniq : EbookFile :=
  { full_path := "/dl/u", filename := "u", file_size := 3, size_hash := some 3 }

/-- Datalake record of size 5 (a size with a library match). -/
def wCand : EbookFile :=
  { full_path := "/dl/c", filename := "c", file_size := 5, size_hash := some 5 }

/-- Library record of size 5. -/
def wLib : EbookFile :=
  { full_path := "/lib/x", filename := "x", file_size := 5, size_hash := some 5 }

def wEbooks : FileCollection := add_file (add_file {} wUniq) wCand

def wCalibre : FileCollection := add_file {} wLib

theorem stage1_size_filter_spec_witness :
    markSize wUniq ∈ (stage1Compare wEbooks wCalibre).1 ∧
    markSize wCand ∈ (stage1Compare wEbooks wCalibre).2 :=
  ⟨(stage1_size_filter_spec wEbooks wCalibre).1 wUniq (by decide)
      |>.1 (by decide),
   (stage1_size_filter_spec wEbooks wCalibre).1 wCand (by decide)
      |>.2 (by decide)⟩

/-- Library record of size 5 with 1KB hash `[7]` (stored in the
`(size, 1k_hash)` index by `add_file`). -/
def wLib1k : EbookFile :=
  { full_path := "/lib/y", filename := "y", file_size := 5, size_hash := some 5,
    first_1k_hash := some [7] }

def wCal1k : FileCollection := add_file {} wLib1k

/-- Candidate whose `(size, 1k_hash)` matches the library. -/
def wMatch1k : EbookFile :=
  { full_path := "/dl/m", filename := "m", file_size := 5, size_hash := some 5,
    first_1k_hash := some [7] }

/-- Candidate whose 1KB hash has no library match. -/
def wMiss1k : EbookFile :=
  { full_path := "/dl/n", filename := "n", file_size := 5, size_hash := some 5,
    first_1k_hash := some [8] }

/-- Candidate whose 1KB hashing failed. -/
def wNo1k : EbookFile :=
  { full_path := "/dl/o", filename := "o", file_size := 5, size_hash := some 5 }

theorem stage2_prefix_filter_spec_witness :
    mark1k wNo1k ∈ (stage2Go wCal1k [wMatch1k, wMiss1k, wNo1k]).1 ∧
    mark1k wMiss1k ∈ (stage2Go wCal1k [wMatch1k, wMiss1k, wNo1k]).1 ∧
    mark1k wMatch1k ∈ (stage2Go wCal1k [wMatch1k, wMiss1k, wNo1k]).2 :=
  ⟨(stage2_prefix_filter_spec wCal1k [wMatch1k, wMiss1k, wNo1k]).1 wNo1k
      (by decide) |>.1 (by decide),
   ((stage2_prefix_filter_spec wCal1k [wMatch1k, wMiss1k, wNo1k]).1 wMiss1k
      (by decide) |>.2 [8] (by decide)).1 (by decide),
   ((stage2_prefix_filter_spec wCal1k [wMatch1k, wMiss1k, wNo1k]).1 wMatch1k
      (by decide) |>.2 [7] (by decide)).2 (by decide)⟩

/-- Library record with full hash `[9]` (stored in the full-hash index by
`add_file`). -/
def wLibFull : EbookFile :=
  { full_path := "/lib/z", filename := "z", file_size := 5, size_hash := some 5,
    full_hash := some [9] }

def wCalFull : FileCollection := add_file {} wLibFull

/-- Stage 3 candidate whose full hash has no library match. -/
def wMissFull : EbookFile :=
  { full_path := "/dl/p", filename := "p", file_size := 5, size_hash := some 5,
    full_hash := some [5] }

/-- Stage 3 candidate whose full hashing failed. -/
def wNoFull : EbookFile :=
  { full_path := "/dl/q", filename := "q", file_size := 5, size_hash := some 5 }

theorem stage3_full_filter_spec_witness :
    markFull wNoFull ∈ (stage3Go wCalFull [wMissFull, wNoFull]).1 ∧
    markFull wMissFull ∈ (stage3Go wCalFull [wMissFull, wNoFull]).1 :=
  ⟨(stage3_full_filter_spec wCalFull [wMissFull, wNoFull]).2.1 wNoFull
      (by decide) |>.1 (by decide),
   ((stage3_full_filter_spec wCalFull [wMissFull, wNoFull]).2.1 wMissFull
      (by decide) |>.2 [5] (by decide) (by decide)).mpr (by decide)⟩

/-! ## Preprocessing (GPU/CPU categorization policy) -/

theorem preprocessGo_eq (ga : Bool) (t : Option Nat) (proc : List String)
    (files : List EbookFile) :
    preprocessGo ga t proc files =
      ⟨(files.filter (fun f => !decide (f.full_path ∈ proc) &&
          decide (ga = true ∧ ∃ v, t = some v ∧ v ≤ f.file_size))).map
          (fun f => { f with processing_method := "gpu" }),
       (files.filter (fun f => !decide (f.full_path ∈ proc) &&
          !decide (ga = true ∧ ∃ v, t = some v ∧ v ≤ f.file_size))).map
          (fun f => { f with processing_method := "cpu" }),
       files.filter (fun f => decide (f.full_path ∈ proc))⟩ := by
  induction files with
  | nil => rfl
  | cons f rest ih =>
    by_cases hs : f.full_path ∈ proc
    · have h3 : decide (f.full_path ∈ proc) = true := decide_eq_true hs
      simp only [preprocessGo, if_pos hs, ih, List.filter_cons, h3,
        Bool.not_true, Bool.false_and, if_false, if_true, Bool.false_eq_true]
    · have h3 : decide (f.full_path ∈ proc) = false :=
        decide_eq_false hs
      by_cases hg : ga = true ∧ ∃ v, t = some v ∧ v ≤ f.file_size
      · have h1 : decide (ga = true ∧ ∃ v, t = some v ∧ v ≤ f.file_size) = true :=
          decide_eq_true hg
        simp only [preprocessGo, if_neg hs, if_pos hg, ih, List.filter_cons,
          h1, h3, Bool.not_false, Bool.not_true, Bool.true_and, Bool.and_false,
          if_true, if_false, Bool.false_eq_true, Bool.true_eq_false,
          List.map_cons]
      · have h1 : decide (ga = true ∧ ∃ v, t = some v ∧ v ≤ f.file_size) = false :=
          decide_eq_false hg
        simp only [preprocessGo, if_neg hs, if_neg hg, ih, List.filter_cons,
          h1, h3, Bool.not_false, Bool.true_and, Bool.and_false, if_true,
          if_false, Bool.false_eq_true, Bool.true_eq_false, List.map_cons]

/-- C5: A record passed through the categorization policy and not skipped as
already processed is assigned `processing_method = "gpu"` exactly when the
GPU is available, a threshold is in effect, and the record's size reaches
it; otherwise it is assigned `"cpu"`.  The categorization of the
library-side records selected for full hashing is the identical
`preprocess_files` function applied to that selection. -/
theorem preprocess_gpu_policy_spec :
    (∀ (files : List EbookFile) (ga : Bool) (gt : Option Nat)
        (proc : List String) (f : EbookFile),
        f ∈ files → f.full_path ∉ proc →
        ((ga = true ∧ ∃ v, effective_gpu_threshold ga gt = some v ∧
            v ≤ f.file_size) →
          { f with processing_method := "gpu" } ∈
            (preprocess_files files ga gt proc).gpu) ∧
        (¬(ga = true ∧ ∃ v, effective_gpu_threshold ga gt = some v ∧
            v ≤ f.file_size) →
          { f with processing_method := "cpu" } ∈
            (preprocess_files files ga gt proc).cpu)) ∧
    (∀ (files : List EbookFile) (ga : Bool) (gt : Option Nat)
        (proc : List String) (g : EbookFile),
        g ∈ (preprocess_files files ga gt proc).gpu →
        ∃ f, f ∈ files ∧ f.full_path ∉ proc ∧
          g = { f with processing_method := "gpu" } ∧
          (ga = true ∧ ∃ v, effective_gpu_threshold ga gt = some v ∧
            v ≤ f.file_size)) ∧
    (∀ (files : List EbookFile) (ga : Bool) (gt : Option Nat)
        (proc : List String) (g : EbookFile),
        g ∈ (preprocess_files files ga gt proc).cpu →
        ∃ f, f ∈ files ∧ f.full_path ∉ proc ∧
          g = { f with processing_method := "cpu" } ∧
          ¬(ga = true ∧ ∃ v, effective_gpu_threshold ga gt = some v ∧
            v ≤ f.file_size)) ∧
    (∀ (calibre : FileCollection) (cands : List EbookFile) (ga : Bool)
        (gt : Option Nat) (proc : List String),
        calibre_stage3_categorized calibre cands ga gt proc =
          preprocess_files (calibre_stage3_candidates calibre cands) ga gt
            proc) := by
  refine ⟨fun files ga gt proc f hf hnp => ⟨fun hcond => ?_, fun hcond => ?_⟩,
    fun files ga gt proc g hg => ?_, fun files ga gt proc g hg => ?_,
    fun _ _ _ _ _ => rfl⟩
  · unfold preprocess_files
    rw [preprocessGo_eq]
    refine List.mem_map_of_mem _ (List.mem_filter.mpr ⟨hf, ?_⟩)
    rw [Bool.and_eq_true, Bool.not_eq_true', decide_eq_false_iff_not,
      decide_eq_true_eq]
    exact ⟨hnp, hcond⟩
  · unfold preprocess_files
    rw [preprocessGo_eq]
    refine List.mem_map_of_mem _ (List.mem_filter.mpr ⟨hf, ?_⟩)
    rw [Bool.and_eq_true, Bool.not_eq_true', decide_eq_false_iff_not,
      Bool.not_eq_true', decide_eq_false_iff_not]
    exact ⟨hnp, hcond⟩
  · unfold preprocess_files at hg
    rw [preprocessGo_eq] at hg
    rcases List.mem_map.mp hg with ⟨f, hfm, rfl⟩
    rcases List.mem_filter.mp hfm with ⟨hfi, hcond⟩
    simp only [Bool.and_eq_true, Bool.not_eq_true', decide_eq_false_iff_not,
      decide_eq_true_eq] at hcond
    exact ⟨f, hfi, hcond.1, rfl, hcond.2⟩
  · unfold preprocess_files at hg
    rw [preprocessGo_eq] at hg
    rcases List.mem_map.mp hg with ⟨f, hfm, rfl⟩
    rcases List.mem_filter.mp hfm with ⟨hfi, hcond⟩
    simp only [Bool.and_eq_true, Bool.not_eq_true', decide_eq_false_iff_not,
      decide_eq_true_eq] at hcond
    exact ⟨f, hfi, hcond.1, rfl, hcond.2⟩

/-- Large record (size 10, above the witness threshold). -/
def wBig : EbookFile :=
  { full_path := "/dl/big", filename := "big", file_size := 10 }

/-- Small record (size 3, below the witness threshold). -/
def wSmall : EbookFile :=
  { full_path := "/dl/small", filename := "small", file_size := 3 }

theorem preprocess_gpu_policy_spec_witness :
    { wBig with processing_method := "gpu" } ∈
      (preprocess_files [wBig, wSmall] true (some 10) []).gpu ∧
    { wSmall with processing_method := "cpu" } ∈
      (preprocess_files [wBig, wSmall] true (some 10) []).cpu :=
  ⟨(preprocess_gpu_policy_spec.1 [wBig, wSmall] true (some 10) [] wBig
      (by decide) (by decide)).1 ⟨rfl, 10, rfl, by decide⟩,
   (preprocess_gpu_policy_spec.1 [wBig, wSmall] true (some 10) [] wSmall
      (by decide) (by decide)).2 (by decide)⟩

/-! ## CPU batch hashing: error sentinel and order preservation -/

theorem fillResults_length (w : Nat → Bytes) (order : List Nat)
    (init : List (Option Bytes)) :
    (fillResults w order init).length = init.length := by
  induction order generalizing init with
  | nil => rfl
  | cons i rest ih => simp [fillResults, ih, List.length_set]

theorem fillResults_getElem? (w : Nat → Bytes) (order : List Nat)
    (init : List (Option Bytes)) (j : Nat) :
    (fillResults w order init)[j]? =
      if j ∈ order ∧ j < init.length then some (some (w j)) else init[j]? := by
  induction order generalizing init with
  | nil => simp [fillResults]
  | cons i rest ih =>
    show (fillResults w rest (init.set i (some (w i))))[j]? = _
    rw [ih]
    rw [List.length_set]
    by_cases hjr : j ∈ rest
    · by_cases hj : j < init.length
      · simp [hjr, hj, List.mem_cons]
      · simp only [hjr, hj, and_true, and_false, if_false, List.getElem?_set]
        by_cases hij : i = j <;> simp [hij, hj] <;> omega
    · by_cases hij : i = j
      · subst hij
        by_cases hj : i < init.length <;>
          simp [hjr, hj, List.mem_cons, List.getElem?_set] <;> omega
      · have hji : ¬j = i := fun h => hij h.symm
        simp [hjr, hij, hji, List.mem_cons, List.getElem?_set]

/-- C7: CPU batch hashing.  (a) `hash_batch` succeeds on both valid stages
and returns exactly the per-file worker results in input order, and the
worker of a file whose open/read fails yields the empty-hash sentinel while
every other file's digest is unaffected; (b) the positional write-back
reproduces the in-order result list under any completion order (any
permutation of the task indices). -/
theorem cpu_batch_sentinel_and_order_spec :
    (∀ (H : Bytes → Bytes) (fs : String → Option Bytes)
        (files : List EbookFile),
        cpu_hash_batch H fs files "full" =
          Except.ok (files.map (fun f => hash_full_file_worker H fs f.full_path)) ∧
        cpu_hash_batch H fs files "1k" =
          Except.ok (files.map (fun f => hash_first_1k_worker H fs f.full_path)) ∧
        (∀ f ∈ files, fs f.full_path = none →
          hash_full_file_worker H fs f.full_path = [] ∧
          hash_first_1k_worker H fs f.full_path = []) ∧
        (∀ f ∈ files, ∀ c, fs f.full_path = some c →
          hash_full_file_worker H fs f.full_path = H c ∧
          hash_first_1k_worker H fs f.full_path = H (c.take 1024))) ∧
    (∀ (w : Nat → Bytes) (n : Nat) (order : List Nat),
        order.Perm (List.range n) →
        fillResults w order (List.replicate n none) =
          (List.range n).map (fun i => some (w i))) := by
  constructor
  · intro H fs files
    refine ⟨rfl, rfl, fun f _ hnone => ?_, fun f _ c hsome => ?_⟩
    · constructor <;> simp [hash_full_file_worker, hash_first_1k_worker, hnone]
    · constructor <;> simp [hash_full_file_worker, hash_first_1k_worker, hsome]
  · intro w n order hperm
    apply List.ext_getElem?
    intro j
    rw [fillResults_getElem?]
    have hmem : j ∈ order ↔ j < n := by
      rw [hperm.mem_iff, List.mem_range]
    by_cases hj : j < n
    · simp [hmem, hj, List.length_replicate, List.getElem?_map,
        List.getElem?_range hj]
    · have hj' : n ≤ j := Nat.le_of_not_lt hj
      simp only [hmem, hj, false_and, and_false, if_false,
        List.length_replicate]
      rw [List.getElem?_eq_none (by simpa using hj'),
        List.getElem?_eq_none (by simpa using hj')]

theorem cpu_batch_sentinel_and_order_spec_witness :
    cpu_hash_batch (fun l => l)
        (fun p => if p = "/dl/u" then some [1, 2] else none) [wUniq, wCand]
        "full" = Except.ok [[1, 2], []] ∧
    fillResults (fun i => [i]) [1, 0] (List.replicate 2 none) =
      [some [0], some [1]] := by
  constructor
  · have h := (cpu_batch_sentinel_and_order_spec.1 (fun l => l)
      (fun p => if p = "/dl/u" then some [1, 2] else none) [wUniq, wCand]).1
    rfl
  · have h := cpu_batch_sentinel_and_order_spec.2 (fun i => [i]) 2 [1, 0]
      (by decide)
    rw [h]
    decide

/-! ## GPU backend: unknown stage and full-file digest divergence -/

/-- Filesystem fixture: one datalake file `/dl/u` with bytes `[1, 2, 3]`. -/
def dlFs : String → Option Bytes :=
  fun p => if p = "/dl/u" then some [1, 2, 3] else none

theorem readLoop_zero (c : Bytes) : readLoop 0 c = [] := by
  unfold readLoop
  simp

theorem readLoop_pos (k : Nat) (hk : k ≠ 0) :
    ∀ (n : Nat) (c : Bytes), c.length ≤ n → readLoop k c = c := by
  intro n
  induction n with
  | zero =>
    intro c hc
    have : c = [] := List.length_eq_zero.mp (Nat.le_zero.mp hc)
    subst this
    unfold readLoop
    simp
  | succ n ih =>
    intro c hc
    by_cases hce : c = []
    · subst hce
      unfold readLoop
      simp
    · rw [readLoop, dif_neg (by simp [hk, hce])]
      have hdrop : (c.drop k).length ≤ n := by
        rw [List.length_drop]
        have h1 : 1 ≤ k := Nat.one_le_iff_ne_zero.mpr hk
        omega
      rw [ih (c.drop k) hdrop, List.take_append_drop]

/-- C8: The CPU backend rejects an unknown stage identifier with an error
(as does the GPU backend while it is delegating to the CPU one), but the
GPU backend with an available accelerator silently accepts an unknown stage
and full-hashes the batch, returning results instead of aborting. -/
theorem hash_batch_unknown_stage_divergence :
    cpu_hash_batch (fun l => l) dlFs [wUniq] "bogus" =
      Except.error "Unknown stage: bogus" ∧
    gpu_hash_batch (fun l => l) dlFs ⟨false, 0, false⟩ [wUniq] "bogus" =
      Except.error "Unknown stage: bogus" ∧
    gpu_hash_batch (fun l => l) dlFs ⟨true, 100, false⟩ [wUniq] "bogus" =
      Except.ok [[1, 2, 3]] := by
  refine ⟨rfl, rfl, ?_⟩
  have h1 : gpu_hash_batch (fun l => l) dlFs ⟨true, 100, false⟩ [wUniq] "bogus" =
      Except.ok [gpu_hash_full_file (fun l => l) dlFs ⟨true, 100, false⟩ wUniq] :=
    rfl
  rw [h1]
  have h2 : gpu_hash_full_file (fun l => l) dlFs ⟨true, 100, false⟩ wUniq =
      [1, 2, 3] := by
    unfold gpu_hash_full_file
    norm_num [dlFs, wUniq]
  rw [h2]

/-- C9: With the accelerator available but the free-memory re-query
returning `0` (as `get_available_memory` does both when the device has no
free bytes and when the re-query raises and is caught), a non-empty file
takes the chunked path with `chunk = min(256MB, 0) = 0`; `read(0)` is empty
so the loop body never runs, and the GPU backend returns the digest of the
empty byte string instead of the CPU backend's digest of the content (and
instead of falling back to CPU). -/
theorem gpu_zero_usable_memory_divergence :
    gpu_hash_full_file (fun l => l) dlFs ⟨true, 0, false⟩ wUniq = [] ∧
    hash_full_file_worker (fun l => l) dlFs wUniq.full_path = [1, 2, 3] ∧
    gpu_hash_full_file (fun l => l) dlFs ⟨true, 0, false⟩ wUniq ≠
      hash_full_file_worker (fun l => l) dlFs wUniq.full_path := by
  have h2 : hash_full_file_worker (fun l => l) dlFs wUniq.full_path =
      [1, 2, 3] := rfl
  have h1 : gpu_hash_full_file (fun l => l) dlFs ⟨true, 0, false⟩ wUniq = [] := by
    unfold gpu_hash_full_file
    norm_num [dlFs, wUniq, readLoop_zero]
  exact ⟨h1, h2, by rw [h1, h2]; simp⟩

/-! ## The within-datalake deduplication pass -/

theorem alookup_cons {α β : Type} [DecidableEq α] (k' : α) (v' : β)
    (rest : List (α × β)) (k : α) :
    alookup ((k', v') :: rest) k =
      if k' = k then some v' else alookup rest k := by
  by_cases h : k' = k <;> simp [alookup, List.find?, h]

/-- Once a key is recorded in `seen` with first record `x`, no later record
with that key is kept, and every later record with that key produces a
report row naming `x` as the original. -/
theorem dedupGo_seen (k : DKey) (x : EbookFile) :
    ∀ (files : List EbookFile) (seen : List (DKey × EbookFile)),
      alookup seen k = some x →
      (∀ w ∈ (dedupGo seen files).1, dedupKey w ≠ k) ∧
      (∀ v ∈ files, dedupKey v = k →
        mkDupEntry v x (methodOf k) ∈ (dedupGo seen files).2) := by
  intro files
  induction files with
  | nil => intro seen _; simp [dedupGo]
  | cons f rest ih =>
    intro seen hx
    by_cases hk : dedupKey f = k
    · have hlook : alookup seen (dedupKey f) = some x := by rw [hk]; exact hx
      have ihr := ih seen hx
      simp only [dedupGo, hlook]
      constructor
      · exact fun w hw => ihr.1 w hw
      · intro v hv hkv
        rcases List.mem_cons.mp hv with rfl | hv'
        · rw [← hk]
          exact List.mem_cons_self _ _
        · exact List.mem_cons_of_mem _ (ihr.2 v hv' hkv)
    · cases halo : alookup seen (dedupKey f) with
      | none =>
        have hx' : alookup ((dedupKey f, f) :: seen) k = some x := by
          rw [alookup_cons, if_neg hk]
          exact hx
        have ihr := ih ((dedupKey f, f) :: seen) hx'
        simp only [dedupGo, halo]
        constructor
        · intro w hw
          rcases List.mem_cons.mp hw with rfl | hw'
          · exact hk
          · exact ihr.1 w hw'
        · intro v hv hkv
          rcases List.mem_cons.mp hv with rfl | hv'
          · exact absurd hkv hk
          · exact ihr.2 v hv' hkv
      | some orig =>
        have ihr := ih seen hx
        simp only [dedupGo, halo]
        constructor
        · exact ihr.1
        · intro v hv hkv
          rcases List.mem_cons.mp hv with rfl | hv'
          · exact absurd hkv hk
          · exact List.mem_cons_of_mem _ (ihr.2 v hv' hkv)

/-- The first record whose key is not yet seen is kept, is the only output
record with its key, and every later record with the same key is reported
as its duplicate. -/
theorem dedupGo_first (f : EbookFile) :
    ∀ (pre : List EbookFile) (post : List EbookFile)
      (seen : List (DKey × EbookFile)),
      (∀ g ∈ pre, dedupKey g ≠ dedupKey f) →
      alookup seen (dedupKey f) = none →
      f ∈ (dedupGo seen (pre ++ f :: post)).1 ∧
      (∀ w ∈ (dedupGo seen (pre ++ f :: post)).1,
        dedupKey w = dedupKey f → w = f) ∧
      (∀ v ∈ post, dedupKey v = dedupKey f →
        mkDupEntry v f (methodOf (dedupKey f)) ∈
          (dedupGo seen (pre ++ f :: post)).2) := by
  intro pre
  induction pre with
  | nil =>
    intro post seen _ hnone
    simp only [List.nil_append, dedupGo, hnone]
    have hx : alookup ((dedupKey f, f) :: seen) (dedupKey f) = some f := by
      rw [alookup_cons, if_pos rfl]
    have hd := dedupGo_seen (dedupKey f) f post ((dedupKey f, f) :: seen) hx
    refine ⟨List.mem_cons_self _ _, ?_, ?_⟩
    · intro w hw hkw
      rcases List.mem_cons.mp hw with rfl | hw'
      · rfl
      · exact absurd hkw (hd.1 w hw')
    · exact hd.2
  | cons g pre' ih =>
    intro post seen hpre hnone
    have hg : dedupKey g ≠ dedupKey f := hpre g (List.mem_cons_self _ _)
    have hpre' : ∀ x ∈ pre', dedupKey x ≠ dedupKey f :=
      fun x hx => hpre x (List.mem_cons_of_mem _ hx)
    rw [List.cons_append]
    cases halo : alookup seen (dedupKey g) with
    | none =>
      have hnone' : alookup ((dedupKey g, g) :: seen) (dedupKey f) = none := by
        rw [alookup_cons, if_neg hg]
        exact hnone
      have ihr := ih post ((dedupKey g, g) :: seen) hpre' hnone'
      simp only [dedupGo, halo]
      refine ⟨List.mem_cons_of_mem _ ihr.1, ?_, ihr.2.2⟩
      intro w hw hkw
      rcases List.mem_cons.mp hw with rfl | hw'
      · exact absurd hkw hg
      · exact ihr.2.1 w hw' hkw
    | some orig =>
      have ihr := ih post seen hpre' hnone
      simp only [dedupGo, halo]
      exact ⟨ihr.1, ihr.2.1,
        fun v hv hkv => List.mem_cons_of_mem _ (ihr.2.2 v hv hkv)⟩

theorem dedupKey_ne_sizeOnly_of_size_ne (c : EbookFile) (s : Nat)
    (hs : get_size_hash c ≠ s) : dedupKey c ≠ DKey.sizeOnly s := by
  unfold dedupKey
  by_cases h1 : truthy c.full_hash <;> by_cases h2 : truthy c.first_1k_hash <;>
    simp [h1, h2, hs]

theorem dedupKey_markSize (f : EbookFile) : dedupKey (markSize f) = dedupKey f :=
  rfl

/-- C4 (amended): the dedup pass keys each record by full hash when
populated and non-empty, else by `(size, 1k_hash)` when populated, else by
size; the first record under a key is kept and is the only output record
with that key; every subsequent record with the same key is dropped and
reported against the first with the method of that key.  In particular, two
records whose (populated) full hashes agree — identical full-file bytes
that reached Stage 3 — with distinct paths and no earlier record sharing
the key: exactly the first appears in the output and the other is reported
with method `full_hash`. -/
theorem dedup_key_preference_spec :
    (∀ f : EbookFile,
        (truthy f.full_hash = true →
          dedupKey f = DKey.fullH (f.full_hash.getD [])) ∧
        (truthy f.full_hash = false → truthy f.first_1k_hash = true →
          dedupKey f = DKey.size1k (get_size_hash f) (f.first_1k_hash.getD [])) ∧
        (truthy f.full_hash = false → truthy f.first_1k_hash = false →
          dedupKey f = DKey.sizeOnly (get_size_hash f))) ∧
    ((∀ h, methodOf (DKey.fullH h) = "full_hash") ∧
     (∀ s h, methodOf (DKey.size1k s h) = "size+1k_hash") ∧
     (∀ s, methodOf (DKey.sizeOnly s) = "size_only")) ∧
    (∀ (pre post : List EbookFile) (f : EbookFile),
        (∀ g ∈ pre, dedupKey g ≠ dedupKey f) →
        f ∈ (deduplicate (pre ++ f :: post)).1 ∧
        (∀ w ∈ (deduplicate (pre ++ f :: post)).1,
          dedupKey w = dedupKey f → w = f) ∧
        (∀ v ∈ post, dedupKey v = dedupKey f →
          mkDupEntry v f (methodOf (dedupKey f)) ∈
            (deduplicate (pre ++ f :: post)).2)) ∧
    (∀ (pre mid post : List EbookFile) (u v : EbookFile),
        (∀ g ∈ pre, dedupKey g ≠ dedupKey u) →
        truthy u.full_hash = true → u.full_hash = v.full_hash →
        u.full_path ≠ v.full_path →
        u ∈ (deduplicate (pre ++ u :: (mid ++ v :: post))).1 ∧
        v ∉ (deduplicate (pre ++ u :: (mid ++ v :: post))).1 ∧
        mkDupEntry v u "full_hash" ∈
          (deduplicate (pre ++ u :: (mid ++ v :: post))).2) := by
  refine ⟨fun f => ⟨fun h1 => ?_, fun h1 h2 => ?_, fun h1 h2 => ?_⟩,
    ⟨fun _ => rfl, fun _ _ => rfl, fun _ => rfl⟩,
    fun pre post f hpre => ?_, fun pre mid post u v hpre htr huv hpath => ?_⟩
  · simp [dedupKey, h1]
  · simp [dedupKey, h1, h2]
  · simp [dedupKey, h1, h2]
  · exact dedupGo_first f pre post [] hpre rfl
  · have hkeyu : dedupKey u = DKey.fullH (u.full_hash.getD []) := by
      simp [dedupKey, htr]
    have htrv : truthy v.full_hash = true := by rw [← huv]; exact htr
    have hkeyv : dedupKey v = dedupKey u := by
      simp [dedupKey, htrv, htr, ← huv]
    have hfirst := dedupGo_first u pre (mid ++ v :: post) [] hpre rfl
    refine ⟨hfirst.1, fun hv => ?_, ?_⟩
    · have := hfirst.2.1 v hv hkeyv
      exact hpath (by rw [this])
    · have hmem : v ∈ mid ++ v :: post :=
        List.mem_append_right _ (List.mem_cons_self _ _)
      have := hfirst.2.2 v hmem hkeyv
      rw [hkeyu] at this
      exact this

/-- Within-datalake pair of identical files whose size (3) is absent from
the library: both stay Stage-1-unique, so the dedup pass can only key them
by size. -/
def cexA : EbookFile :=
  { full_path := "/dl/a", filename := "a", file_size := 3 }

def cexB : EbookFile :=
  { full_path := "/dl/b", filename := "b", file_size := 3 }

def cexLib : EbookFile :=
  { full_path := "/lib/c", filename := "c", file_size := 5 }

/-- Filesystem: `/dl/a` and `/dl/b` have identical bytes `[1, 2, 3]`; the
library file has different content, so both datalake files are absent from
the library. -/
def cexFs : String → Option Bytes := fun p =>
  if p = "/dl/a" then some [1, 2, 3]
  else if p = "/dl/b" then some [1, 2, 3]
  else if p = "/lib/c" then some [9, 9, 9, 9, 9] else none

def cexEbooks : FileCollection := add_file (add_file {} cexA) cexB

def cexCalibre : FileCollection := add_file {} cexLib

/-- Counterexample to C4 as stated: `/dl/a` and `/dl/b` have identical
full-file bytes and are both absent from the library, yet the duplicates
report records `/dl/b` with method `size_only`, not `full_hash` (the pair
never reaches Stage 3, so no full hash exists to key on). -/
theorem within_datalake_full_hash_counterexample :
    ((run_analyze_core (fun l => l) cexFs false ⟨false, 0, false⟩ cexEbooks
        cexCalibre false none []).1.map EbookFile.full_path = ["/dl/a"]) ∧
    ((run_analyze_core (fun l => l) cexFs false ⟨false, 0, false⟩ cexEbooks
        cexCalibre false none []).2.map
        (fun e => (e.duplicate_path, e.original_path, e.method)) =
      [("/dl/b", "/dl/a", "size_only")]) := by
  decide

/-- Pair of records with equal populated full hashes, as after Stage 3. -/
def wDupU : EbookFile :=
  { full_path := "/dl/du", filename := "du", file_size := 7,
    full_hash := some [3] }

def wDupV : EbookFile :=
  { full_path := "/dl/dv", filename := "dv", file_size := 7,
    full_hash := some [3] }

theorem dedup_key_preference_spec_witness :
    wDupU ∈ (deduplicate [wDupU, wDupV]).1 ∧
    wDupV ∉ (deduplicate [wDupU, wDupV]).1 ∧
    mkDupEntry wDupV wDupU "full_hash" ∈ (deduplicate [wDupU, wDupV]).2 :=
  dedup_key_preference_spec.2.2.2 [] [] [] wDupU wDupV (by simp) (by decide)
    (by decide) (by decide)

/-- C10: Two datalake records that Stage 1 classifies unique (size absent
from the library) and that share a size — so neither ever receives any
hash — collapse in the final dedup pass even when their contents differ:
with no earlier record carrying the same size-only key, the first appears
in the final output, the second does not, and the second is reported as a
duplicate of the first with method `size_only`.  (`fs` and `H` are
arbitrary: the files' contents play no role.) -/
theorem stage1_unique_size_only_dedup_spec
    (H : Bytes → Bytes) (fs : String → Option Bytes) (gpuPresent : Bool)
    (st : GPUState) (ebooks calibre : FileCollection) (ga : Bool)
    (gt : Option Nat) (proc : List String)
    (pre mid post : List EbookFile) (a b : EbookFile)
    (hsplit : ebooks.files = pre ++ a :: (mid ++ b :: post))
    (ha1 : a.first_1k_hash = none) (ha2 : a.full_hash = none)
    (hb1 : b.first_1k_hash = none) (hb2 : b.full_hash = none)
    (hsize : get_size_hash b = get_size_hash a)
    (habs : get_size_hash a ∉ unique_sizes calibre)
    (hpre : ∀ c ∈ pre, get_size_hash c ≠ get_size_hash a)
    (hpath : a.full_path ≠ b.full_path) :
    markSize a ∈
      (run_analyze_core H fs gpuPresent st ebooks calibre ga gt proc).1 ∧
    markSize b ∉
      (run_analyze_core H fs gpuPresent st ebooks calibre ga gt proc).1 ∧
    mkDupEntry (markSize b) (markSize a) "size_only" ∈
      (run_analyze_core H fs gpuPresent st ebooks calibre ga gt proc).2 := by
  obtain ⟨tail, hform⟩ : ∃ tail,
      run_analyze_core H fs gpuPresent st ebooks calibre ga gt proc =
        deduplicate ((stage1Go (unique_sizes calibre) ebooks.files).1 ++ tail) :=
    ⟨_, rfl⟩
  have hbs : get_size_hash b ∉ unique_sizes calibre := by
    rw [hsize]; exact habs
  have hfilter : (stage1Go (unique_sizes calibre) ebooks.files).1 =
      ((pre.filter
          (fun f => decide (get_size_hash f ∉ unique_sizes calibre))).map
            markSize) ++
        markSize a ::
          (((mid.filter
              (fun f => decide (get_size_hash f ∉ unique_sizes calibre))).map
                markSize) ++
            markSize b ::
              ((post.filter
                (fun f =>
                  decide (get_size_hash f ∉ unique_sizes calibre))).map
                    markSize)) := by
    rw [hsplit, stage1Go_eq]
    simp only [List.filter_append, List.filter_cons, habs, hbs,
      decide_not, decide_eq_true_eq, not_false_eq_true, if_true, if_pos,
      List.map_append, List.map_cons]
    simp [habs, hbs]
  rw [hform, hfilter]
  rw [List.append_assoc, List.cons_append]
  have hka : dedupKey (markSize a) = DKey.sizeOnly (get_size_hash a) := by
    rw [dedupKey_markSize]
    simp [dedupKey, truthy, ha1, ha2]
  have hkb : dedupKey (markSize b) = dedupKey (markSize a) := by
    rw [dedupKey_markSize, dedupKey_markSize]
    simp [dedupKey, truthy, ha1, ha2, hb1, hb2, hsize]
  have hkeys : ∀ g ∈ (pre.filter
      (fun f => decide (get_size_hash f ∉ unique_sizes calibre))).map markSize,
      dedupKey g ≠ dedupKey (markSize a) := by
    intro g hg
    rcases List.mem_map.mp hg with ⟨c, hcf, rfl⟩
    have hc : c ∈ pre := List.mem_of_mem_filter hcf
    rw [dedupKey_markSize, hka]
    exact dedupKey_ne_sizeOnly_of_size_ne c _ (hpre c hc)
  have hfirst := dedupGo_first (markSize a)
    ((pre.filter
      (fun f => decide (get_size_hash f ∉ unique_sizes calibre))).map markSize)
    ((((mid.filter
        (fun f => decide (get_size_hash f ∉ unique_sizes calibre))).map
          markSize) ++
        markSize b ::
          ((post.filter
            (fun f => decide (get_size_hash f ∉ unique_sizes calibre))).map
              markSize)) ++ tail)
    [] hkeys rfl
  refine ⟨hfirst.1, fun hmem => ?_, ?_⟩
  · have heq := hfirst.2.1 (markSize b) hmem hkb
    exact hpath (by
      have : (markSize a).full_path = (markSize b).full_path := by rw [heq]
      exact this)
  · have hmemb : markSize b ∈
        ((((mid.filter
            (fun f => decide (get_size_hash f ∉ unique_sizes calibre))).map
              markSize) ++
            markSize b ::
              ((post.filter
                (fun f =>
                  decide (get_size_hash f ∉ unique_sizes calibre))).map
                    markSize)) ++ tail) :=
      List.mem_append_left _
        (List.mem_append_right _ (List.mem_cons_self _ _))
    have := hfirst.2.2 (markSize b) hmemb hkb
    rw [hka] at this
    exact this

theorem stage1_unique_size_only_dedup_spec_witness :
    markSize { cexA with size_hash := some 3 } ∈
      (run_analyze_core (fun l => l) cexFs false ⟨false, 0, false⟩ cexEbooks
        cexCalibre false none []).1 ∧
    markSize { cexB with size_hash := some 3 } ∉
      (run_analyze_core (fun l => l) cexFs false ⟨false, 0, false⟩ cexEbooks
        cexCalibre false none []).1 ∧
    mkDupEntry (markSize { cexB with size_hash := some 3 })
        (markSize { cexA with size_hash := some 3 }) "size_only" ∈
      (run_analyze_core (fun l => l) cexFs false ⟨false, 0, false⟩ cexEbooks
        cexCalibre false none []).2 :=
  stage1_unique_size_only_dedup_spec (fun l => l) cexFs false ⟨false, 0, false⟩
    cexEbooks cexCalibre false none [] [] [] []
    { cexA with size_hash := some 3 } { cexB with size_hash := some 3 }
    (by decide) (by decide) (by decide) (by decide) (by decide) (by decide)
    (by decide) (by simp) (by decide)

/-! ## The orchestrator hashes only library records that can still collide -/

theorem mem_preprocess_gpu (files : List EbookFile) (ga : Bool)
    (gt : Option Nat) (proc : List String) (g : EbookFile) :
    g ∈ (preprocess_files files ga gt proc).gpu ↔
      ∃ f, f ∈ files ∧ f.full_path ∉ proc ∧
        (ga = true ∧ ∃ v, effective_gpu_threshold ga gt = some v ∧
          v ≤ f.file_size) ∧
        g = { f with processing_method := "gpu" } := by
  unfold preprocess_files
  rw [preprocessGo_eq]
  simp only [List.mem_map, List.mem_filter, Bool.and_eq_true,
    Bool.not_eq_true', decide_eq_false_iff_not, decide_eq_true_eq]
  constructor
  · rintro ⟨f, ⟨hfi, hnp, hcond⟩, rfl⟩
    exact ⟨f, hfi, hnp, hcond, rfl⟩
  · rintro ⟨f, hfi, hnp, hcond, rfl⟩
    exact ⟨f, ⟨hfi, hnp, hcond⟩, rfl⟩

theorem mem_preprocess_cpu (files : List EbookFile) (ga : Bool)
    (gt : Option Nat) (proc : List String) (g : EbookFile) :
    g ∈ (preprocess_files files ga gt proc).cpu ↔
      ∃ f, f ∈ files ∧ f.full_path ∉ proc ∧
        ¬(ga = true ∧ ∃ v, effective_gpu_threshold ga gt = some v ∧
          v ≤ f.file_size) ∧
        g = { f with processing_method := "cpu" } := by
  unfold preprocess_files
  rw [preprocessGo_eq]
  simp only [List.mem_map, List.mem_filter, Bool.and_eq_true,
    Bool.not_eq_true', decide_eq_false_iff_not]
  constructor
  · rintro ⟨f, ⟨hfi, hnp, hcond⟩, rfl⟩
    exact ⟨f, hfi, hnp, hcond, rfl⟩
  · rintro ⟨f, hfi, hnp, hcond, rfl⟩
    exact ⟨f, ⟨hfi, hnp, hcond⟩, rfl⟩

/-- C6 (amended): the orchestrator's backend invocations.  Prefix stage: the
library batch goes to the CPU backend with stage `"1k"` (as does the ebooks
batch), and a path is prefix-hashed on the library side exactly when a
library record with that path has its size among the candidate sizes.  Full
stage: every library-side batch has stage `"full"`, and a path is
full-hashed on the library side exactly when a library record with that
path shares a `(size, 1k_hash)` pair with some Stage 2 candidate and is not
excluded by the resume skip set.  (`ga = true → gpuPresent = true` is the
invariant `run_analyze` maintains: it clears the availability flag whenever
no GPU processor is attached.) -/
theorem orchestrator_selective_hashing_spec :
    (∀ (H : Bytes → Bytes) (fs : String → Option Bytes)
        (calibre : FileCollection) (cands : List EbookFile),
        (hash_stage2_files H fs calibre cands).2.2 =
          hash_stage2_calls calibre cands ∧
        (∀ call ∈ hash_stage2_calls calibre cands,
          call.backend = "cpu" ∧ call.stage = "1k") ∧
        (∀ p : String,
          (∃ call ∈ hash_stage2_calls calibre cands,
            call.side = "calibre" ∧ p ∈ call.paths) ↔
          ∃ g ∈ calibre.files,
            get_size_hash g ∈ cands.map get_size_hash ∧ g.full_path = p)) ∧
    (∀ (H : Bytes → Bytes) (fs : String → Option Bytes) (gpuPresent : Bool)
        (st : GPUState) (calibre : FileCollection) (cands : List EbookFile)
        (ga : Bool) (gt : Option Nat) (proc : List String),
        (ga = true → gpuPresent = true) →
        (hash_stage3_files H fs gpuPresent st calibre cands ga gt proc).2.2 =
          hash_stage3_calls gpuPresent calibre cands ga gt proc ∧
        (∀ call ∈ hash_stage3_calls gpuPresent calibre cands ga gt proc,
          call.side = "calibre" → call.stage = "full") ∧
        (∀ p : String,
          (∃ call ∈ hash_stage3_calls gpuPresent calibre cands ga gt proc,
            call.side = "calibre" ∧ p ∈ call.paths) ↔
          ∃ g ∈ calibre_stage3_candidates calibre cands,
            g.full_path ∉ proc ∧ g.full_path = p)) := by
  constructor
  · intro H fs calibre cands
    refine ⟨rfl, ?_, ?_⟩
    · intro call hcall
      unfold hash_stage2_calls at hcall
      rcases List.mem_append.mp hcall with h | h
      · by_cases he : (calibre_stage2_candidates calibre cands).isEmpty
        · rw [if_pos he] at h
          exact absurd h (List.not_mem_nil _)
        · rw [if_neg he] at h
          rw [List.mem_singleton.mp h]
          exact ⟨rfl, rfl⟩
      · rw [List.mem_singleton.mp h]
        exact ⟨rfl, rfl⟩
    · intro p
      constructor
      · rintro ⟨call, hcall, hside, hp⟩
        unfold hash_stage2_calls at hcall
        rcases List.mem_append.mp hcall with h | h
        · by_cases he : (calibre_stage2_candidates calibre cands).isEmpty
          · rw [if_pos he] at h
            exact absurd h (List.not_mem_nil _)
          · rw [if_neg he] at h
            rw [List.mem_singleton.mp h] at hp
            rcases List.mem_map.mp hp with ⟨g, hg, hgp⟩
            rcases List.mem_filter.mp hg with ⟨hgi, hcond⟩
            exact ⟨g, hgi, by simpa using hcond, hgp⟩
        · rw [List.mem_singleton.mp h] at hside
          exact absurd hside (show ("ebooks" : String) ≠ "calibre" by decide)
      · rintro ⟨g, hgi, hsz, rfl⟩
        have hgsel : g ∈ calibre_stage2_candidates calibre cands :=
          List.mem_filter.mpr ⟨hgi, by simpa using hsz⟩
        refine ⟨⟨"calibre", "cpu", "1k",
          (calibre_stage2_candidates calibre cands).map (·.full_path)⟩,
          ?_, rfl, List.mem_map_of_mem _ hgsel⟩
        unfold hash_stage2_calls
        apply List.mem_append_left
        rw [if_neg (by simp [List.ne_nil_of_mem hgsel])]
        exact List.mem_singleton.mpr rfl
  · intro H fs gpuPresent st calibre cands ga gt proc hsync
    refine ⟨rfl, ?_, ?_⟩
    · intro call hcall
      unfold hash_stage3_calls at hcall
      rcases List.mem_append.mp hcall with h | h
      · split at h
        · exact absurd h (List.not_mem_nil _)
        · rw [List.mem_singleton.mp h]
          intro _
          rfl
      · rcases List.mem_append.mp h with h | h
        · split at h
          · exact absurd h (List.not_mem_nil _)
          · rw [List.mem_singleton.mp h]
            intro _
            rfl
        · rcases List.mem_append.mp h with h | h
          · split at h
            · exact absurd h (List.not_mem_nil _)
            · rw [List.mem_singleton.mp h]
              intro hside
              exact absurd hside (show ("ebooks" : String) ≠ "calibre" by decide)
          · split at h
            · exact absurd h (List.not_mem_nil _)
            · rw [List.mem_singleton.mp h]
              intro hside
              exact absurd hside (show ("ebooks" : String) ≠ "calibre" by decide)
    · intro p
      constructor
      · rintro ⟨call, hcall, hside, hp⟩
        unfold hash_stage3_calls at hcall
        rcases List.mem_append.mp hcall with h | h
        · split at h
          · exact absurd h (List.not_mem_nil _)
          · rw [List.mem_singleton.mp h] at hp
            rcases List.mem_map.mp hp with ⟨g', hg', hgp⟩
            rcases (mem_preprocess_gpu _ _ _ _ _).mp hg' with
              ⟨f, hfsel, hnp, _, rfl⟩
            exact ⟨f, hfsel, hnp, hgp⟩
        · rcases List.mem_append.mp h with h | h
          · split at h
            · exact absurd h (List.not_mem_nil _)
            · rw [List.mem_singleton.mp h] at hp
              rcases List.mem_map.mp hp with ⟨g', hg', hgp⟩
              rcases (mem_preprocess_cpu _ _ _ _ _).mp hg' with
                ⟨f, hfsel, hnp, _, rfl⟩
              exact ⟨f, hfsel, hnp, hgp⟩
          · rcases List.mem_append.mp h with h | h
            · split at h
              · exact absurd h (List.not_mem_nil _)
              · rw [List.mem_singleton.mp h] at hside
                exact absurd hside (show ("ebooks" : String) ≠ "calibre" by decide)
            · split at h
              · exact absurd h (List.not_mem_nil _)
              · rw [List.mem_singleton.mp h] at hside
                exact absurd hside (show ("ebooks" : String) ≠ "calibre" by decide)
      · rintro ⟨g, hgsel, hnp, rfl⟩
        by_cases hcond : ga = true ∧ ∃ v,
            effective_gpu_threshold ga gt = some v ∧ v ≤ g.file_size
        · have hgbucket : { g with processing_method := "gpu" } ∈
              (calibre_stage3_categorized calibre cands ga gt proc).gpu :=
            (mem_preprocess_gpu _ _ _ _ _).mpr ⟨g, hgsel, hnp, hcond, rfl⟩
          have hgp : gpuPresent = true := hsync hcond.1
          refine ⟨⟨"calibre", "gpu", "full",
            (calibre_stage3_categorized calibre cands ga gt proc).gpu.map
              (·.full_path)⟩, ?_, rfl, ?_⟩
          · unfold hash_stage3_calls
            apply List.mem_append_left
            rw [if_neg]
            · exact List.mem_singleton.mpr rfl
            · rintro (he | he)
              · rw [List.isEmpty_eq_true] at he
                rw [he] at hgbucket
                exact absurd hgbucket (List.not_mem_nil _)
              · rw [hgp] at he
                exact absurd he (by decide)
          · exact List.mem_map.mpr ⟨_, hgbucket, rfl⟩
        · have hgbucket : { g with processing_method := "cpu" } ∈
              (calibre_stage3_categorized calibre cands ga gt proc).cpu :=
            (mem_preprocess_cpu _ _ _ _ _).mpr ⟨g, hgsel, hnp, hcond, rfl⟩
          refine ⟨⟨"calibre", "cpu", "full",
            (calibre_stage3_categorized calibre cands ga gt proc).cpu.map
              (·.full_path)⟩, ?_, rfl, ?_⟩
          · unfold hash_stage3_calls
            apply List.mem_append_right
            apply List.mem_append_left
            rw [if_neg]
            · exact List.mem_singleton.mpr rfl
            · intro he
              rw [List.isEmpty_eq_true] at he
              rw [he] at hgbucket
              exact absurd hgbucket (List.not_mem_nil _)
          · exact List.mem_map.mpr ⟨_, hgbucket, rfl⟩

theorem orchestrator_selective_hashing_spec_witness :
    (∃ call ∈ hash_stage2_calls wCalibre [wCand],
      call.side = "calibre" ∧ "/lib/x" ∈ call.paths) ∧
    (∃ call ∈ hash_stage3_calls false wCal1k [wMatch1k] false none [],
      call.side = "calibre" ∧ "/lib/y" ∈ call.paths) := by
  constructor
  · exact ((orchestrator_selective_hashing_spec.1 (fun l => l) (fun _ => none)
      wCalibre [wCand]).2.2 "/lib/x").mpr ⟨wLib, by decide, by decide, rfl⟩
  · exact ((orchestrator_selective_hashing_spec.2 (fun l => l) (fun _ => none)
      false ⟨false, 0, false⟩ wCal1k [wMatch1k] false none []
      (fun h => absurd h (by decide))).2.2 "/lib/y").mpr
      ⟨wLib1k, by decide, by decide, rfl⟩

/-- Counterexample to C6 as stated: the library record `/lib/y` shares its
`(size, 1k_hash)` pair with the Stage 2 candidate `/dl/m`, yet when its
path is in the resume skip set it is not full-hashed — the only full-stage
batch issued is the ebooks-side one. -/
theorem orchestrator_skip_counterexample :
    wLib1k ∈ calibre_stage3_candidates wCal1k [wMatch1k] ∧
    hash_stage3_calls false wCal1k [wMatch1k] false none ["/lib/y"] =
      [⟨"ebooks", "cpu", "full", ["/dl/m"]⟩] ∧
    (hash_stage3_files (fun l => l) (fun _ => none) false ⟨false, 0, false⟩
        wCal1k [wMatch1k] false none ["/lib/y"]).2.2 =
      [⟨"ebooks", "cpu", "full", ["/dl/m"]⟩] :=
  ⟨by decide, by decide, by decide⟩

end EbookAnalyzer
